import Mathlib

/-!
Verification of the SLM-Controller command dispatcher and pattern engine.

This file gives a shallow embedding, in Lean 4, of the message-driven command
dispatcher and the pattern-computation-and-caching engine of the
SLM-Controller repository (src/message_loop.rs, src/schema.rs, src/main.rs),
and proves properties of that embedding.

Modelling conventions:
- IEEE-754 single-precision values are modelled as exact rationals; the
  constants `PI` and `TWO_PI` below are the exact rational values of the
  `f32` constants `std::f32::consts::PI` and `PI * 2.0` used by the source.
  Floating-point rounding of intermediate products is ignored; every
  property proved here has slack far larger than the rounding error.
- File paths are lists of path components; the filesystem is an association
  list from paths to decoded single-channel 8-bit rasters.  `path.is_file()`
  is membership among the filesystem keys.
- Rust `HashMap`s are modelled as association lists.  For
  `BasePattern.properties` (a `HashMap<String, String>` in src/schema.rs)
  the list records the map contents in one possible iteration order, since
  a Rust `HashMap` does not preserve or specify any order.
- Rust panics (out-of-bounds indexing, `ndarray` shape mismatches) are
  modelled as `Except.error` results carrying a message beginning with
  `panic:`.
- External effects (the SDL presentation surface, MQTT publishes, the debug
  image dump of `compute_pattern`) are outside every property treated here
  and are modelled as successful no-ops.
-/

namespace SLM

/-- Path of a file, as its list of components. -/
abbrev FsPath := List String

/-- Exact rational value of the `f32` constant `std::f32::consts::PI`. -/
def PI : ℚ := 13176795 / 4194304

/-- Exact rational value of the source constant `TWO_PI = std::f32::consts::PI * 2.0`. -/
def TWO_PI : ℚ := 13176795 / 2097152

/-- Model of `f32::rem_euclid`: for a positive modulus the result is the
representative of `x` in `[0, y)`. -/
def remEuclid (x y : ℚ) : ℚ := x - y * (⌊x / y⌋ : ℤ)

/-- Model of the Rust saturating-truncating cast `as u8` applied to a float:
negative values go to 0, values at or above 256 saturate at 255, others
truncate toward zero. -/
def f32AsU8 (x : ℚ) : ℕ := if x < 0 then 0 else min 255 (Int.toNat ⌊x⌋)

/-- Decoded 2-D float image (phase values), row major. -/
abbrev Image := List (List ℚ)

/-- Single-channel 8-bit raster as stored on disk, row major. -/
abbrev Raster := List (List ℕ)

/-- The filesystem: paths mapped to the 8-bit rasters stored there. -/
abbrev Disk := List (FsPath × Raster)

/-- Normalisation applied by `read_image_from_file`: integer sample `s`
becomes the phase `s * (TWO_PI / 256)`. -/
def readImageSample (s : ℕ) : ℚ := (s : ℚ) * (TWO_PI / 256)

/-- Quantisation applied per sample by `save_image`:
`(e.rem_euclid(TWO_PI) * 255.0 / TWO_PI) as u8`. -/
def saveImageSample (e : ℚ) : ℕ := f32AsU8 (remEuclid e TWO_PI * 255 / TWO_PI)

/-- Per-sample quantisation at the end of `compute_pattern`:
`(e.rem_euclid(TWO_PI) / TWO_PI * scale) as u8`. -/
def quantizeSample (scale e : ℚ) : ℕ := f32AsU8 (remEuclid e TWO_PI / TWO_PI * scale)

/-- The 8-bit raster written by `save_image` for a float image. -/
def save_image (a : Image) : Raster := a.map (fun row => row.map saveImageSample)

/-- Indexing `array.get((i, j))` on a raster. -/
def rasterGet (raster : Raster) (i j : ℕ) : Option ℕ :=
  (raster.get? i).bind (fun row => row.get? j)

/-- Model of `ndarray::Array2::from_shape_fn`. -/
def mkImage (rows cols : ℕ) (f : ℕ → ℕ → ℚ) : Image :=
  (List.range rows).map (fun i => (List.range cols).map (f i))

/-- Shape agreement of two images, as required by `ndarray` elementwise `+`. -/
def sameShape (a b : Image) : Bool :=
  a.length == b.length && (List.zip a b).all (fun p => p.1.length == p.2.length)

/-- Elementwise addition of two images; an `ndarray` shape mismatch panic is
modelled as an error. -/
def addImage (a b : Image) : Except String Image :=
  if sameShape a b then
    .ok (List.zipWith (fun ra rb => List.zipWith (fun x y => x + y) ra rb) a b)
  else
    .error ("panic: ndarray shape mismatch in elementwise addition")

/-- Generic association-list lookup (`HashMap` indexing / `contains_key`). -/
def lookupAssoc {κ β : Type} [DecidableEq κ] (k : κ) : List (κ × β) → Option β
  | [] => none
  | kv :: rest => if kv.1 = k then some kv.2 else lookupAssoc k rest

/-- Generic association-list insert-or-overwrite (`HashMap::insert`). -/
def assocInsert {κ β : Type} [DecidableEq κ] (k : κ) (v : β) : List (κ × β) → List (κ × β)
  | [] => [(k, v)]
  | kv :: rest => if kv.1 = k then (k, v) :: rest else kv :: assocInsert k v rest

/-- Set of files present on the modelled filesystem. -/
def diskPaths (disk : Disk) : List FsPath := disk.map Prod.fst

/-- Model of `read_image_from_file` (src/message_loop.rs lines 35-49):
open the file as an 8-bit gray raster, normalise each sample to a phase, and
when a target shape is given, build the target-shaped array by direct index
lookup with out-of-bounds treated as phase 0. -/
def read_image_from_file (disk : Disk) (path : FsPath) (dim : Option (ℕ × ℕ)) :
    Except String Image :=
  match lookupAssoc path disk with
  | none => .error ("cannot open image file")
  | some raster =>
    match dim with
    | some d => .ok (mkImage d.1 d.2 (fun i j => ((rasterGet raster i j).map readImageSample).getD 0))
    | none => .ok (raster.map (fun row => row.map readImageSample))

/-- Splitting a character list on a separator character; structural model of
Rust `str::split`. -/
def splitChars (sep : Char) (cs : List Char) : List (List Char) :=
  cs.foldr
    (fun ch acc =>
      if ch = sep then [] :: acc
      else
        match acc with
        | [] => [[ch]]
        | cur :: rest => (ch :: cur) :: rest)
    [[]]

/-- Model of `file_name.split('_')` returning strings. -/
def splitOnChar (sep : Char) (s : String) : List String :=
  (splitChars sep s.toList).map (fun cs => String.mk cs)

/-- Removal of every (leftmost, non-overlapping) occurrence of the eight
characters `_factory`; structural model of `str::replace("_factory", "")`. -/
def removeFactoryChars : List Char → List Char
  | ('_') :: ('f') :: ('a') :: ('c') :: ('t') :: ('o') :: ('r') :: ('y') :: rest =>
      removeFactoryChars rest
  | c :: cs => c :: removeFactoryChars cs
  | [] => []

/-- Model of `file_name.replace("_factory", "")`. -/
def stripFactoryName (s : String) : String := String.mk (removeFactoryChars s.toList)

/-- Model of the merge path's `fp.set_file_name(filename.replace("_factory", ""))`. -/
def stripFactoryPath (p : FsPath) : FsPath :=
  p.dropLast ++ [stripFactoryName ((p.getLast?).getD (""))]

/-- Index of the last `.` in a character list, if any. -/
def lastDotIdxAux : List Char → ℕ → Option ℕ → Option ℕ
  | [], _, acc => acc
  | c :: cs, i, acc => lastDotIdxAux cs (i + 1) (if c = ('.') then some i else acc)

/-- Index of the last `.` in a character list, if any. -/
def lastDotIdx (cs : List Char) : Option ℕ := lastDotIdxAux cs 0 none

/-- Model of `Path::file_stem` restricted to a final path component: the part
before the last dot, except that a leading dot does not start an extension. -/
def file_stem_of (name : String) : String :=
  match lastDotIdx name.toList with
  | none => name
  | some 0 => name
  | some i => String.mk (name.toList.take i)

/-- Model of `Path::set_extension` acting on a final path component. -/
def set_extension (name ext : String) : String :=
  if ext = ("") then file_stem_of name else file_stem_of name ++ "." ++ ext

/-- Spot-pattern parameters (src/schema.rs `SpotPattern`). -/
structure SpotPattern where
  position_xy : ℚ × ℚ
  diameter : ℚ
  gradient_xy : ℚ × ℚ
  background_gradient_xy : ℚ × ℚ
deriving DecidableEq

/-- Pattern selector (src/schema.rs `PatternParams`).  The `base` variant
carries the contents of the source's `BasePattern`: the filename together
with the `(property, value)` pairs of its `HashMap<String, String>`, listed
in one possible iteration order of that unordered map. -/
inductive PatternParams where
  | spot (spot : SpotPattern)
  | custom (filename : String)
  | base (filename : String) (properties : List (String × String))
deriving DecidableEq

/-- Laser description received in a `Device/Lasers(Set)` message
(src/schema.rs `LaserState`). -/
structure LaserState where
  name : String
  state : ℕ
  wavelength : ℕ
  intensity : ℕ
deriving DecidableEq

/-- Payload of `SetCorrectionPatternDeltas` (src/schema.rs).  `imagedata`
holds the already base64-decoded little-endian `f32` raster samples. -/
structure CorrectionPatternDeltas where
  wavelength : ℕ
  imagedata : List ℚ
  shape_xy : ℕ × ℕ
deriving DecidableEq

/-- Configuration fields consulted by the dispatcher and compute engine
(src/schema.rs `Config`, flattened). -/
structure Config where
  base_patterns : FsPath
  flatness_corr_patterns : FsPath
  screen_size : ℕ × ℕ
  image_file_extensions : List String
  add_flatness_correction : Bool
  known_wavelengths : List ℕ
  scale_factors : List ℚ
deriving DecidableEq

/-- Catalog entry for one pattern family (src/schema.rs `APattern`); the
`property_values` HashMap is an association list here. -/
structure APattern where
  properties : List String
  property_values : List (String × List String)
deriving DecidableEq

/-- The catalog reported by `availablePatterns` (src/schema.rs
`AvailablePatterns`); the `patterns` HashMap is an association list here. -/
structure AvailablePatterns where
  patterns : List (String × APattern)
  pattern_names : List String
deriving DecidableEq

/-- Append one observed value for a property (`property_values.get_mut(..).values.push(..)`). -/
def pvAppend (l : List (String × List String)) (p v : String) : List (String × List String) :=
  match l with
  | [] => [(p, [v])]
  | kv :: rest => if kv.1 = p then (kv.1, kv.2 ++ [v]) :: rest else kv :: pvAppend rest p v

/-- Model of the `process_value` closure of `available_patterns`
(src/message_loop.rs lines 104-117): register the property name if unseen,
then append the value. -/
def processValue (a : APattern) (property value : String) : APattern :=
  let a1 :=
    if property ∈ a.properties then a
    else { properties := a.properties ++ [property],
           property_values := a.property_values ++ [(property, [])] }
  { a1 with property_values := pvAppend a1.property_values property value }

/-- The property/value loop of `available_patterns` (lines 134-142): consume
pairs until the parts run out; a trailing property with no value aborts the
closure via `?`, keeping all mutations already applied. -/
def processPairs (a : APattern) : List String → APattern
  | [] => a
  | [_] => a
  | p :: v :: rest => processPairs (processValue a p v) rest

/-- Model of `patterns.patterns.entry(name).or_default()` followed by
mutation of the entry. -/
def catUpdate (cat : List (String × APattern)) (name : String) (g : APattern → APattern) :
    List (String × APattern) :=
  match cat with
  | [] => [(name, g { properties := [], property_values := [] })]
  | kv :: rest => if kv.1 = name then (kv.1, g kv.2) :: rest else kv :: catUpdate rest name g

/-- Processing of one base-directory file stem by `available_patterns`
(lines 128-142): split the stem on `_`, register the family under the first
part, then consume `(property, value)` pairs. -/
def processEntry (cat : List (String × APattern)) (parts : List String) :
    List (String × APattern) :=
  match parts with
  | [] => cat
  | name :: rest => catUpdate cat name (fun a => processPairs a rest)

/-- Model of `Context::available_patterns` (src/message_loop.rs lines
100-175).  Inputs are the file stems found directly in the base-pattern
directory and the file names found in its `custom_patterns` subdirectory;
directory-walk mechanics are external.  `pattern_names` is the sorted list
of family names. -/
def available_patterns (base_file_stems custom_file_names : List String) : AvailablePatterns :=
  let cat := base_file_stems.foldl (fun c stem => processEntry c (splitOnChar ('_') stem)) []
  let cat2 := custom_file_names.foldl
    (fun c fn => catUpdate c ("custom") (fun a => processValue a ("filename") fn)) cat
  { patterns := cat2,
    pattern_names := (cat2.map Prod.fst).insertionSort (fun a b => a ≤ b) }

/-- Filename prefix built by `get_file_path_for_flatness_corr_pattern`:
`"flatness_wavelength_" + wavelength.to_string()`. -/
def flatness_filename (wavelength : ℕ) : String :=
  ("flatness_wavelength_") ++ toString wavelength

/-- Inner loop of `get_file_path_for_flatness_corr_pattern`: probe
`dir/(filename + factory + ext)` for each configured extension, first hit
wins. -/
def probeFlatExts (dirp : FsPath) (fs : List FsPath) (filename factory : String) :
    List String → Option FsPath
  | [] => none
  | ext :: rest =>
    let path := dirp ++ [filename ++ factory ++ ext]
    if path ∈ fs then some path else probeFlatExts dirp fs filename factory rest

/-- Outer loop of `get_file_path_for_flatness_corr_pattern` over the variant
suffixes. -/
def probeFlatFactories (dirp : FsPath) (fs : List FsPath) (filename : String)
    (exts : List String) : List String → Option FsPath
  | [] => none
  | factory :: rest =>
    match probeFlatExts dirp fs filename factory exts with
    | some p => some p
    | none => probeFlatFactories dirp fs filename exts rest

/-- Model of `get_file_path_for_flatness_corr_pattern` (src/message_loop.rs
lines 249-269).  The source iterates `for factory in &["", "_factory"]`,
i.e. the plain variant is probed before the `_factory` variant. -/
def get_file_path_for_flatness_corr_pattern (dirp : FsPath) (exts : List String)
    (fs : List FsPath) (wavelength : ℕ) : Except String FsPath :=
  match probeFlatFactories dirp fs (flatness_filename wavelength) exts [(""), ("_factory")] with
  | some p => .ok p
  | none => .error (("No flatness correction pattern for wavelength ") ++ toString wavelength)

/-- Filename accumulation loop of the `Base` arm of
`get_file_path_for_base_corr_pattern` (lines 280-282): starting from the
family filename, append `"_" + property + "_" + value` for each pair in the
order the property map is iterated. -/
def buildBaseFilename (filename : String) (properties : List (String × String)) : String :=
  properties.foldl (fun fn pv => fn ++ "_" ++ pv.1 ++ "_" ++ pv.2) filename

/-- Extension-probing loop of the `Base` arm (lines 284-289).  The source
mutates one `PathBuf` with `set_extension(ext)` per iteration, so the
current file name is threaded through. -/
def probeBaseExts (dirp : FsPath) (fs : List FsPath) (desc : String) :
    String → List String → Except String FsPath
  | _, [] => .error (("Cannot find file for base pattern ") ++ desc)
  | cur, ext :: rest =>
    let cur2 := set_extension cur ext
    if (dirp ++ [cur2]) ∈ fs then .ok (dirp ++ [cur2]) else probeBaseExts dirp fs desc cur2 rest

/-- Model of `get_file_path_for_base_corr_pattern` (src/message_loop.rs lines
271-294).  The `custom` arm is a plain join of the *base-pattern* directory
and the given filename; the `base` arm builds the underscore-joined filename
and probes each configured extension.  (The source's error text for the
`base` arm debug-formats the whole pattern; the built filename stands in for
it here.) -/
def get_file_path_for_base_corr_pattern (cfg : Config) (fs : List FsPath) :
    PatternParams → Except String FsPath
  | .spot _ => .error ("Cannot get file path for the spot pattern")
  | .custom filename => .ok (cfg.base_patterns ++ [filename])
  | .base filename properties =>
    probeBaseExts cfg.base_patterns fs (buildBaseFilename filename properties)
      (buildBaseFilename filename properties) cfg.image_file_extensions

/-- Model of the `custom_pattern_path` closure of `process_message`
(src/message_loop.rs lines 515-521): current directory, then the
base-pattern directory, then `custom_patterns`, then the file name.  This is
where `UploadImage` writes and `DeleteImage` deletes. -/
def custom_pattern_path (cwd : FsPath) (cfg : Config) (name : String) : FsPath :=
  cwd ++ cfg.base_patterns ++ [("custom_patterns"), name]

/-- Model of Rust `Iterator::max_by_key`: of several equally maximal
elements, the *last* one is returned. -/
def maxByKeyLast {α : Type} (f : α → ℕ) : List α → Option α
  | [] => none
  | x :: xs => some (xs.foldl (fun a b => if f a ≤ f b then b else a) x)

/-- Filter applied to lasers in the `Device/Lasers(Set)` handler:
`laser.state != 0 && laser.name != "led"`. -/
def qualifies (laser : LaserState) : Bool :=
  laser.state != 0 && laser.name != ("led")

/-- Laser choice of the `Device/Lasers(Set)` handler (src/message_loop.rs
lines 491-494): filter, then `max_by_key` on intensity. -/
def select_strongest (lasers : List LaserState) : Option LaserState :=
  maxByKeyLast (fun laser => laser.intensity) (lasers.filter qualifies)

/-- Model of Rust `Iterator::position`. -/
def position {α : Type} (pred : α → Bool) : List α → Option ℕ
  | [] => none
  | x :: xs => if pred x then some 0 else (position pred xs).map (fun i => i + 1)

/-- Model of Rust `Iterator::min_by_key`: of several equally minimal
elements, the *first* one is returned. -/
def minByKeyFirst {α : Type} (f : α → ℕ) : List α → Option α
  | [] => none
  | x :: xs => some (xs.foldl (fun a b => if f b < f a then b else a) x)

/-- The `u32` absolute difference `e.max(w) - e.min(w)` used as the
`min_by_key` key in the scale lookup. -/
def u32_abs_diff (a b : ℕ) : ℕ := max a b - min a b

/-- Scale-index selection of `compute_pattern` (src/message_loop.rs lines
393-409): the position of an exact wavelength match if any, else the
`enumerate().min_by_key(..)` index of the closest known wavelength. -/
def scale_id (known_wavelengths : List ℕ) (wavelength : ℕ) : Except String ℕ :=
  match position (fun e => e == wavelength) known_wavelengths with
  | some id => .ok id
  | none =>
    match minByKeyFirst (fun p => u32_abs_diff p.2 wavelength)
        (List.enumFrom 0 known_wavelengths) with
    | some p => .ok p.1
    | none => .error ("no known wavelengths available")

/-- Scale-factor lookup `scaling.scale_factors[scale_id]`; the Rust indexing
panic on a too-short factor list is modelled as an error. -/
def lookupScale (known_wavelengths : List ℕ) (scale_factors : List ℚ) (wavelength : ℕ) :
    Except String ℚ :=
  match scale_id known_wavelengths wavelength with
  | .error e => .error e
  | .ok id =>
    match scale_factors.get? id with
    | some s => .ok s
    | none => .error ("panic: scale factor index out of bounds")

/-- Device state owned by the dispatcher (src/main.rs `State`). -/
structure State where
  wavelength : ℕ
  fresnel : ℕ
  pattern_params : PatternParams
  cache : List (FsPath × Image)
deriving DecidableEq

/-- The dispatcher state together with the modelled filesystem. -/
structure Sys where
  state : State
  disk : Disk
deriving DecidableEq

/-- Model of `Context::load_data` (src/message_loop.rs lines 220-228): on a
cache miss, read and decode the file and insert the result; on a hit, return
the stored array unchanged (the requested shape is ignored). -/
def load_data (sys : Sys) (path : FsPath) (dim : Option (ℕ × ℕ)) :
    Except String Image × Sys :=
  match lookupAssoc path sys.state.cache with
  | some a => (.ok a, sys)
  | none =>
    match read_image_from_file sys.disk path dim with
    | .error e => (.error e, sys)
    | .ok a =>
      (.ok a, { sys with state := { sys.state with cache := assocInsert path a sys.state.cache } })

/-- Value at index `i` of `ndarray::Array1::linspace(0, stop, n)`. -/
def linspace (n : ℕ) (stop : ℚ) (i : ℕ) : ℚ :=
  if n ≤ 1 then 0 else stop * (i : ℚ) / ((n : ℚ) - 1)

/-- Synthetic base field for the `Spot` selector (src/message_loop.rs lines
348-361): inner gradient inside the disk, background gradient outside. -/
def spotBase (cfg : Config) (spot : SpotPattern) : Image :=
  let sx := cfg.screen_size.1
  let sy := cfg.screen_size.2
  let r2 := (spot.diameter / 2) ^ 2
  mkImage sx sy (fun i j =>
    let x := linspace sx (sx : ℚ) i
    let y := linspace sy (sy : ℚ) j
    if (x - spot.position_xy.1) ^ 2 + (y - spot.position_xy.2) ^ 2 < r2 then
      spot.gradient_xy.1 * x + spot.gradient_xy.2 * y
    else
      spot.background_gradient_xy.1 * x + spot.background_gradient_xy.2 * y)

/-- Blaze-grating term (src/message_loop.rs lines 374-377). -/
def gradientImage (cfg : Config) (wavelength : ℕ) : Image :=
  let sx := cfg.screen_size.1
  let wvlen_fact := TWO_PI * 488 / (wavelength : ℚ)
  let phi_max_x : ℚ := 80
  let slope_x := -phi_max_x * wvlen_fact / (sx : ℚ)
  mkImage sx cfg.screen_size.2
    (fun i _ => slope_x * linspace sx (sx : ℚ) i + phi_max_x * wvlen_fact * (11 / 10))

/-- Fresnel thin-lens term (src/message_loop.rs lines 382-391). -/
def fresnelImage (cfg : Config) (fresnel wavelength : ℕ) : Image :=
  let sx := cfg.screen_size.1
  let sy := cfg.screen_size.2
  let xc := (sx : ℚ) / 2
  let yc := (sy : ℚ) / 2
  let pixel_size_nm : ℚ := 12500
  let fresnel_in_1_over_nm := (fresnel : ℚ) * (1 / 1000000000)
  let pre_factor := pixel_size_nm ^ 2 * PI * fresnel_in_1_over_nm / (wavelength : ℚ)
  mkImage sx sy (fun i j =>
    pre_factor * ((linspace sx (sx : ℚ) i - xc) ^ 2 + (linspace sy (sy : ℚ) j - yc) ^ 2))

/-- Pure tail of `compute_pattern` after the stateful loads: add the optional
flatness correction, the blaze grating, the optional Fresnel term, look up
the per-wavelength scale, and quantise. -/
def finishPattern (cfg : Config) (wavelength fresnel : ℕ) (base : Image)
    (flat : Option Image) : Except String Raster := do
  let p1 ←
    match flat with
    | some fc => addImage base fc
    | none => pure base
  let p2 ← addImage p1 (gradientImage cfg wavelength)
  let p3 ←
    if fresnel != 0 then addImage p2 (fresnelImage cfg fresnel wavelength) else pure p2
  let scale ← lookupScale cfg.known_wavelengths cfg.scale_factors wavelength
  pure (p3.map (fun row => row.map (fun e => quantizeSample scale e)))

/-- Base term of `compute_pattern` (src/message_loop.rs lines 347-366):
synthesise the spot field, or resolve a file and load it at frame shape
through the cache. -/
def computeBase (cfg : Config) (sys : Sys) : Except String Image × Sys :=
  match sys.state.pattern_params with
  | .spot s => (.ok (spotBase cfg s), sys)
  | pp =>
    match get_file_path_for_base_corr_pattern cfg (diskPaths sys.disk) pp with
    | .error e => (.error e, sys)
    | .ok path => load_data sys path (some cfg.screen_size)

/-- Optional flatness-correction load of `compute_pattern` (lines 368-372). -/
def loadFlatness (cfg : Config) (wavelength : ℕ) (sys : Sys) :
    Except String (Option Image) × Sys :=
  if cfg.add_flatness_correction then
    match get_file_path_for_flatness_corr_pattern cfg.flatness_corr_patterns
        cfg.image_file_extensions (diskPaths sys.disk) wavelength with
    | .error e => (.error e, sys)
    | .ok path =>
      match load_data sys path (some cfg.screen_size) with
      | (.error e, sys2) => (.error e, sys2)
      | (.ok a, sys2) => (.ok (some a), sys2)
  else (.ok none, sys)

/-- Model of `Context::compute_pattern` (src/message_loop.rs lines 322-426).
The optional debug image dump is an external side effect and is omitted. -/
def compute_pattern (cfg : Config) (sys : Sys) : Except String Raster × Sys :=
  let wavelength := sys.state.wavelength
  let fresnel := sys.state.fresnel
  match computeBase cfg sys with
  | (.error e, sys1) => (.error e, sys1)
  | (.ok base, sys1) =>
    match loadFlatness cfg wavelength sys1 with
    | (.error e, sys2) => (.error e, sys2)
    | (.ok flat, sys2) => (finishPattern cfg wavelength fresnel base flat, sys2)

/-- Model of `Context::put_pattern`: presentation on the external SDL
surface, a no-op for every property treated here. -/
def put_pattern (_pattern : Raster) : Except String Unit := .ok ()

/-- Model of `Context::update_state` (src/message_loop.rs lines 430-445):
overwrite the selected state fields first, then recompute and present. -/
def update_state (cfg : Config) (sys : Sys) (pattern_params : Option PatternParams)
    (fresnel wavelength : Option ℕ) : Except String Unit × Sys :=
  match compute_pattern cfg
      { sys with state := { sys.state with
          pattern_params := pattern_params.getD sys.state.pattern_params,
          fresnel := fresnel.getD sys.state.fresnel,
          wavelength := wavelength.getD sys.state.wavelength } } with
  | (.error e, sys2) => (.error e, sys2)
  | (.ok pat, sys2) => (put_pattern pat, sys2)

/-- Model of `base64_to_ndarray` (src/message_loop.rs lines 25-33) applied to
the already-decoded `f32` samples: `Array2::from_shape_vec` fails unless the
sample count matches the shape. -/
def base64_to_ndarray (v : List ℚ) (dim : ℕ × ℕ) : Except String Image :=
  if v.length = dim.1 * dim.2 then
    .ok ((List.range dim.1).map (fun i => (v.drop (i * dim.2)).take dim.2))
  else
    .error ("incompatible shape for input vector")

/-- Model of `Context::add_correction_pattern_deltas` (src/message_loop.rs
lines 296-320): resolve the flatness file, load it through the cache, decode
the delta, add elementwise, write the sum back under the `_factory`-stripped
file name, and overwrite the cache entry for that path. -/
def add_correction_pattern_deltas (cfg : Config) (sys : Sys)
    (pattern_deltas : CorrectionPatternDeltas) : Except String Unit × Sys :=
  match get_file_path_for_flatness_corr_pattern cfg.flatness_corr_patterns
      cfg.image_file_extensions (diskPaths sys.disk) pattern_deltas.wavelength with
  | .error e => (.error e, sys)
  | .ok fp =>
    match load_data sys fp none with
    | (.error e, sys1) => (.error e, sys1)
    | (.ok old_pattern, sys1) =>
      match base64_to_ndarray pattern_deltas.imagedata pattern_deltas.shape_xy with
      | .error e => (.error e, sys1)
      | .ok delta =>
        match addImage old_pattern delta with
        | .error e => (.error e, sys1)
        | .ok new_pattern =>
          let fp2 := stripFactoryPath fp
          (.ok (),
            { sys1 with
              disk := assocInsert fp2 (save_image new_pattern) sys1.disk,
              state := { sys1.state with
                cache := assocInsert fp2 new_pattern sys1.state.cache } })

/-- Model of the `Device/Lasers(Set)` handler (src/message_loop.rs lines
487-506): pick the strongest qualifying laser; with none, return without a
state change; otherwise update the wavelength (which recomputes and
presents).  The state report and the spurious trailing "Unexpected message"
error of `process_message` are external to the state change. -/
def processLasersSet (cfg : Config) (sys : Sys) (lasers : List LaserState) :
    Except String Unit × Sys :=
  match select_strongest lasers with
  | none => (.ok (), sys)
  | some strongest => update_state cfg sys none none (some strongest.wavelength)

/-- Resolution order stated by the specification for flatness files: the
`_factory` variant first, then the plain variant.  Modelled from the spec
words for comparison with the source's order. -/
def claimFlatnessFactoryFirst (dirp : FsPath) (exts : List String) (fs : List FsPath)
    (wavelength : ℕ) : Except String FsPath :=
  match probeFlatFactories dirp fs (flatness_filename wavelength) exts [("_factory"), ("")] with
  | some p => .ok p
  | none => .error (("No flatness correction pattern for wavelength ") ++ toString wavelength)

/-- Candidate list probed by the flatness resolution, in source order: every
extension of the plain variant, then every extension of the factory
variant. -/
def flatnessCandidates (dirp : FsPath) (exts : List String) (wavelength : ℕ) : List FsPath :=
  (exts.map (fun ext => dirp ++ [flatness_filename wavelength ++ ext])) ++
    (exts.map (fun ext => dirp ++ [flatness_filename wavelength ++ ("_factory") ++ ext]))

/-- First candidate path that exists on the filesystem. -/
def firstExisting (fs : List FsPath) : List FsPath → Option FsPath
  | [] => none
  | c :: rest => if c ∈ fs then some c else firstExisting fs rest

/-- Declarative "last maximal element" specification used to characterise
`maxByKeyLast`. -/
def lastMaxSpec {α : Type} (f : α → ℕ) : List α → Option α
  | [] => none
  | x :: xs =>
    match lastMaxSpec f xs with
    | none => some x
    | some m => if f x ≤ f m then some m else some x

/-- Declarative "first minimal element" specification used to characterise
`minByKeyFirst`. -/
def firstMinSpec {α : Type} (f : α → ℕ) : List α → Option α
  | [] => none
  | x :: xs =>
    match firstMinSpec f xs with
    | none => some x
    | some m => if f m < f x then some m else some x

/-- Decidable equality for `Except`, needed to evaluate modelled operations
on concrete inputs. -/
instance {ε α : Type} [DecidableEq ε] [DecidableEq α] : DecidableEq (Except ε α) := fun a b =>
  match a, b with
  | .ok x, .ok y =>
    if h : x = y then isTrue (by rw [h]) else isFalse (by intro hh; cases hh; exact h rfl)
  | .error x, .error y =>
    if h : x = y then isTrue (by rw [h]) else isFalse (by intro hh; cases hh; exact h rfl)
  | .ok _, .error _ => isFalse (by intro hh; cases hh)
  | .error _, .ok _ => isFalse (by intro hh; cases hh)

/-- Field agreement between two dispatcher states: the cache may differ, the
three device-state fields may not. -/
def preservesFields (sys sys2 : Sys) : Prop :=
  sys2.state.wavelength = sys.state.wavelength ∧
  sys2.state.fresnel = sys.state.fresnel ∧
  sys2.state.pattern_params = sys.state.pattern_params

/-- Configuration fixture used by the concrete scenarios below. -/
def cfgFix : Config :=
  { base_patterns := [("patterns")],
    flatness_corr_patterns := [],
    screen_size := (1, 1),
    image_file_extensions := [(".png")],
    add_flatness_correction := false,
    known_wavelengths := [450, 500, 550],
    scale_factors := [1, 2, 3] }

/-- Plain flatness-correction file for wavelength 500 (path fixture). -/
def flatPlain : FsPath := [("flatness_wavelength_500.png")]

/-- Factory flatness-correction file for wavelength 500 (path fixture). -/
def flatFactory : FsPath := [("flatness_wavelength_500_factory.png")]

/-- Filesystem fixture on which both flatness variants exist. -/
def fsBoth : List FsPath := [flatPlain, flatFactory]

/-- Device-state fixture with an empty cache. -/
def stateFix : State :=
  { wavelength := 500, fresnel := 0, pattern_params := .custom ("x.png"), cache := [] }

/-- System fixture: the flatness file for wavelength 500 holds the single
8-bit sample `1`. -/
def sysOne : Sys := { state := stateFix, disk := [(flatPlain, [[1]])] }

/-- All-zero correction delta of shape 1 by 1. -/
def deltaZero : CorrectionPatternDeltas :=
  { wavelength := 500, imagedata := [0], shape_xy := (1, 1) }

/-- Correction delta of one half radian, shape 1 by 1. -/
def deltaHalf : CorrectionPatternDeltas :=
  { wavelength := 500, imagedata := [1 / 2], shape_xy := (1, 1) }

/-- System fixture whose flatness file is an empty raster. -/
def sysEmptyRaster : Sys := { state := stateFix, disk := [(flatPlain, [])] }

/-- Empty correction delta of shape 0 by 0. -/
def deltaEmpty : CorrectionPatternDeltas :=
  { wavelength := 500, imagedata := [], shape_xy := (0, 0) }

/-- Result of merging `deltaEmpty` into `sysEmptyRaster`. -/
def sysEmptyMerged : Sys :=
  { state := { stateFix with cache := [(flatPlain, [])] }, disk := [(flatPlain, [])] }

/-- Laser fixture carrying the reserved name `led`. -/
def laserLed : LaserState := { name := ("led"), state := 1, wavelength := 450, intensity := 10 }

/-- First of two lasers tied at intensity 10. -/
def laserA : LaserState := { name := ("a"), state := 1, wavelength := 450, intensity := 10 }

/-- Second of two lasers tied at intensity 10. -/
def laserB : LaserState := { name := ("b"), state := 1, wavelength := 500, intensity := 10 }

theorem str_join_cons (s : String) (l : List String) :
    String.join (s :: l) = s ++ String.join l := by
  have haux : ∀ (l : List String) (a : String),
      l.foldl (fun r s => r ++ s) a = a ++ l.foldl (fun r s => r ++ s) ("") := by
    intro l
    induction l with
    | nil => intro a; simp
    | cons x xs ih =>
      intro a
      simp only [List.foldl_cons]
      rw [ih (a ++ x), ih (("") ++ x)]
      simp [String.append_assoc]
  simp only [String.join, List.foldl_cons]
  rw [haux l (("") ++ s)]
  simp [String.append_assoc]

/-- C9.  Quantization wraps and never clamps: every phase sample is reduced
modulo two pi into the interval from 0 (inclusive) to two pi (exclusive),
negative inputs wrapping around, then scaled by `scale / TWO_PI` and
truncated; in particular the phase `-0.1` and the phase `TWO_PI - 0.1`
quantize to the same 8-bit sample, for every scale factor. -/
theorem quantization_wraps_never_clamps : ∀ scale x : ℚ,
    (0 ≤ remEuclid x TWO_PI ∧ remEuclid x TWO_PI < TWO_PI) ∧
    quantizeSample scale (-(1 / 10)) = quantizeSample scale (TWO_PI - 1 / 10) := by
  intro scale x
  have hT : (0 : ℚ) < TWO_PI := by norm_num [TWO_PI]
  have hx : TWO_PI * (x / TWO_PI) = x := by field_simp
  refine ⟨⟨?_, ?_⟩, ?_⟩
  · have h := Int.floor_le (x / TWO_PI)
    have h2 : TWO_PI * ((⌊x / TWO_PI⌋ : ℤ) : ℚ) ≤ TWO_PI * (x / TWO_PI) :=
      mul_le_mul_of_nonneg_left h hT.le
    unfold remEuclid
    linarith
  · have h := Int.lt_floor_add_one (x / TWO_PI)
    have h2 : TWO_PI * (x / TWO_PI) < TWO_PI * (((⌊x / TWO_PI⌋ : ℤ) : ℚ) + 1) :=
      mul_lt_mul_of_pos_left h hT
    unfold remEuclid
    nlinarith
  · have h1 : remEuclid (-(1 / 10)) TWO_PI = TWO_PI - 1 / 10 := by
      norm_num [remEuclid, TWO_PI]
    have h2 : remEuclid (TWO_PI - 1 / 10) TWO_PI = TWO_PI - 1 / 10 := by
      norm_num [remEuclid, TWO_PI]
    unfold quantizeSample
    rw [h1, h2]

/-- C2.  The pattern compute engine resolves a `Custom` selection to the
plain join of the base-pattern directory and the given filename (with no
probing), while `UploadImage` writes into the `custom_patterns`
subdirectory; for every working directory the two paths differ, so the claim
that the engine reads from the custom-upload directory fails on the code. -/
theorem custom_pattern_resolution_misses_upload_dir :
    get_file_path_for_base_corr_pattern cfgFix [] (PatternParams.custom ("img.png")) =
      Except.ok ([("patterns"), ("img.png")]) ∧
    custom_pattern_path [] cfgFix ("img.png") =
      [("patterns"), ("custom_patterns"), ("img.png")] ∧
    ([("patterns"), ("img.png")] : FsPath) ≠
      [("patterns"), ("custom_patterns"), ("img.png")] := by
  exact ⟨by decide, by decide, by decide⟩

/-- C4 (counterexample).  The probed base-pattern filename depends on the
iteration order of the selector property map: the same two `(property,
value)` pairs yield different filenames under their two possible orders, so
the filename is not determined by device state, configuration, cache and
filesystem alone, and is not built in selector-declared order (the source
stores the pairs in an unordered `HashMap`). -/
theorem base_filename_order_dependent :
    buildBaseFilename ("f") [(("a"), ("1")), (("b"), ("2"))] ≠
      buildBaseFilename ("f") [(("b"), ("2")), (("a"), ("1"))] ∧
    List.Perm [(("a"), ("1")), (("b"), ("2"))] [(("b"), ("2")), (("a"), ("1"))] := by
  exact ⟨by decide, by decide⟩

/-- C4 (amended).  The probed base-pattern filename is the family filename
followed by one `_property_value` segment per map entry, in the order the
stored property map is iterated; the computation is deterministic given that
iteration order (together with state, configuration, cache and filesystem),
but not given the selector contents alone. -/
theorem base_filename_iteration_order_join : ∀ (filename : String) (l : List (String × String)),
    buildBaseFilename filename l =
      filename ++ String.join (l.map (fun pv => ("_") ++ pv.1 ++ ("_") ++ pv.2)) := by
  intro filename l
  induction l generalizing filename with
  | nil => simp [buildBaseFilename, String.join]
  | cons pv rest ih =>
    have h1 : buildBaseFilename filename (pv :: rest) =
        buildBaseFilename (filename ++ ("_") ++ pv.1 ++ ("_") ++ pv.2) rest := rfl
    rw [h1, ih, List.map_cons, str_join_cons]
    simp [String.append_assoc]

/-- C6 (counterexample).  A base-directory file stem with an odd trailing
token is not skipped entirely: the stem `gauss_size_10_shape` still registers
the family `gauss` and records the complete pair `size = 10`; only the
trailing `shape` token is dropped. -/
theorem odd_trailing_token_still_registers :
    (available_patterns [("gauss_size_10_shape")] []).patterns =
      [(("gauss"), { properties := [("size")],
                     property_values := [(("size"), [("10")])] })] := by
  decide

theorem processPairs_even_append (t : String) :
    ∀ (ps : List String) (a : APattern), ps.length % 2 = 0 →
      processPairs a (ps ++ [t]) = processPairs a ps
  | [], _, _ => rfl
  | [_], _, h => by simp at h
  | p :: v :: rest, a, h => by
    have h2 : rest.length % 2 = 0 := by
      simp only [List.length_cons] at h
      omega
    simp only [List.cons_append, processPairs]
    exact processPairs_even_append t rest (processValue a p v) h2

/-- C6 (amended).  A file stem with an odd trailing token contributes exactly
what the stem without that token contributes: the family is registered and
every complete `(property, value)` pair before the odd token is recorded;
only the trailing property-without-value is dropped. -/
theorem odd_trailing_token_drops_only_last (cat : List (String × APattern)) (name t : String)
    (ps : List String) (h : ps.length % 2 = 0) :
    processEntry cat (name :: (ps ++ [t])) = processEntry cat (name :: ps) := by
  show catUpdate cat name (fun a => processPairs a (ps ++ [t])) =
    catUpdate cat name (fun a => processPairs a ps)
  congr 1
  funext a
  exact processPairs_even_append t ps a h

/-- C6 (witness).  The stem parts `gauss, size, 10, shape` produce the same
catalog as `gauss, size, 10`. -/
theorem odd_trailing_token_drops_only_last_witness :
    processEntry [] [("gauss"), ("size"), ("10"), ("shape")] =
      processEntry [] [("gauss"), ("size"), ("10")] :=
  odd_trailing_token_drops_only_last [] ("gauss") ("shape") [("size"), ("10")] (by decide)

/-- C3 (counterexample).  On a filesystem where both the plain and the
factory flatness file for wavelength 500 exist, the source resolution
returns the plain file, while the claimed factory-first order would return
the factory file; the claimed probe order is therefore wrong about the
code. -/
theorem flatness_probe_order_counterexample :
    get_file_path_for_flatness_corr_pattern [] [(".png")] fsBoth 500 = Except.ok flatPlain ∧
    claimFlatnessFactoryFirst [] [(".png")] fsBoth 500 = Except.ok flatFactory ∧
    get_file_path_for_flatness_corr_pattern [] [(".png")] fsBoth 500 ≠
      claimFlatnessFactoryFirst [] [(".png")] fsBoth 500 := by
  exact ⟨by decide, by decide, by decide⟩

theorem probeFlatExts_eq_firstExisting (dirp : FsPath) (fs : List FsPath)
    (filename factory : String) :
    ∀ exts : List String, probeFlatExts dirp fs filename factory exts =
      firstExisting fs (exts.map (fun ext => dirp ++ [filename ++ factory ++ ext]))
  | [] => rfl
  | ext :: rest => by
    simp only [probeFlatExts, firstExisting, List.map_cons]
    rw [probeFlatExts_eq_firstExisting dirp fs filename factory rest]

theorem firstExisting_append (fs : List FsPath) :
    ∀ l1 l2 : List FsPath, firstExisting fs (l1 ++ l2) =
      (match firstExisting fs l1 with
        | some p => some p
        | none => firstExisting fs l2)
  | [], _ => rfl
  | c :: rest, l2 => by
    simp only [List.cons_append, firstExisting]
    split
    · rfl
    · exact firstExisting_append fs rest l2

/-- C3 (amended).  Flatness-correction resolution probes the *plain* variant
first and the factory variant second, trying each configured extension
within each variant in order, and returns the first existing candidate; when
no candidate exists it fails with an error naming the wavelength. -/
theorem flatness_probe_plain_then_factory (dirp : FsPath) (exts : List String)
    (fs : List FsPath) (wavelength : ℕ) :
    get_file_path_for_flatness_corr_pattern dirp exts fs wavelength =
      (match firstExisting fs (flatnessCandidates dirp exts wavelength) with
        | some p => Except.ok p
        | none =>
          Except.error (("No flatness correction pattern for wavelength ") ++
            toString wavelength)) := by
  unfold get_file_path_for_flatness_corr_pattern flatnessCandidates
  rw [firstExisting_append]
  unfold probeFlatFactories
  unfold probeFlatFactories
  unfold probeFlatFactories
  rw [probeFlatExts_eq_firstExisting dirp fs (flatness_filename wavelength) ("") exts,
    probeFlatExts_eq_firstExisting dirp fs (flatness_filename wavelength) ("_factory") exts]
  have hplain : (exts.map (fun ext => dirp ++ [flatness_filename wavelength ++ ("") ++ ext])) =
      exts.map (fun ext => dirp ++ [flatness_filename wavelength ++ ext]) := by
    simp
  rw [hplain]
  cases firstExisting fs (exts.map (fun ext => dirp ++ [flatness_filename wavelength ++ ext])) with
  | none =>
    cases firstExisting fs
        (exts.map (fun ext => dirp ++ [flatness_filename wavelength ++ ("_factory") ++ ext])) with
    | none => rfl
    | some p => rfl
  | some p => rfl

theorem foldlMax_eq_lastMaxSpec {α : Type} (f : α → ℕ) :
    ∀ (xs : List α) (x : α),
      some (xs.foldl (fun a b => if f a ≤ f b then b else a) x) = lastMaxSpec f (x :: xs)
  | [], x => by simp [lastMaxSpec]
  | y :: ys, x => by
    rw [List.foldl_cons, foldlMax_eq_lastMaxSpec f ys (if f x ≤ f y then y else x)]
    cases hm : lastMaxSpec f ys with
    | none =>
      by_cases h1 : f x ≤ f y
      · simp [lastMaxSpec, hm, h1]
      · simp [lastMaxSpec, hm, h1]
    | some m =>
      by_cases h1 : f x ≤ f y
      · by_cases h2 : f y ≤ f m
        · have h3 : f x ≤ f m := le_trans h1 h2
          simp [lastMaxSpec, hm, h1, h2, h3]
        · simp [lastMaxSpec, hm, h1, h2]
      · by_cases h2 : f y ≤ f m
        · simp [lastMaxSpec, hm, h1, h2]
        · have h3 : ¬ f x ≤ f m := by omega
          simp [lastMaxSpec, hm, h1, h2, h3]

theorem maxByKeyLast_eq_lastMaxSpec {α : Type} (f : α → ℕ) (l : List α) :
    maxByKeyLast f l = lastMaxSpec f l := by
  cases l with
  | nil => rfl
  | cons x xs => exact foldlMax_eq_lastMaxSpec f xs x

/-- C5 (counterexample).  Two qualifying lasers tied at the maximal
intensity: the handler selects the *second* (last) one, not the first, so
the claimed first-maximal tie-break is wrong about the code (Rust
`max_by_key` returns the last maximal element). -/
theorem laser_tie_last_not_first :
    select_strongest [laserA, laserB] = some laserB ∧
    select_strongest [laserA, laserB] ≠ some laserA ∧
    laserA.intensity = laserB.intensity := by
  exact ⟨by decide, by decide, by decide⟩

/-- C5 (amended).  The `Device/Lasers(Set)` handler selects, among the
lasers with nonzero state and name other than `led`, one of maximal
intensity, with ties broken in favour of the *last* maximal laser in list
order; when no laser qualifies the device state is unchanged. -/
theorem laser_selection_last_max (cfg : Config) (sys : Sys) (lasers : List LaserState) :
    select_strongest lasers =
      lastMaxSpec (fun laser => laser.intensity) (lasers.filter qualifies) ∧
    (select_strongest lasers = none → processLasersSet cfg sys lasers = (Except.ok (), sys)) := by
  constructor
  · exact maxByKeyLast_eq_lastMaxSpec _ _
  · intro h
    unfold processLasersSet
    rw [h]

/-- C5 (witness).  With only the reserved `led` laser present, nothing
qualifies and the state is returned unchanged. -/
theorem laser_selection_last_max_witness :
    processLasersSet cfgFix sysOne [laserLed] = (Except.ok (), sysOne) :=
  (laser_selection_last_max cfgFix sysOne [laserLed]).2 (by decide)

theorem position_none_all {α : Type} (pred : α → Bool) :
    ∀ l : List α, position pred l = none → ∀ x ∈ l, pred x = false
  | [], _, x, hx => by simp at hx
  | y :: ys, h, x, hx => by
    unfold position at h
    by_cases hy : pred y
    · simp [hy] at h
    · rw [if_neg hy] at h
      have h2 : position pred ys = none := Option.map_eq_none'.mp h
      rcases List.mem_cons.mp hx with rfl | hmem
      · simpa using hy
      · exact position_none_all pred ys h2 x hmem

theorem position_some_spec {α : Type} (pred : α → Bool) :
    ∀ (l : List α) (i : ℕ), position pred l = some i →
      ∃ h : i < l.length, pred (l.get ⟨i, h⟩) = true ∧
        ∀ j (hj : j < l.length), j < i → pred (l.get ⟨j, hj⟩) = false
  | [], i, h => by simp [position] at h
  | y :: ys, i, h => by
    unfold position at h
    by_cases hy : pred y
    · rw [if_pos hy] at h
      injection h with h
      subst h
      refine ⟨Nat.succ_pos _, by simpa using hy, ?_⟩
      intro j hj hji
      exact absurd hji (Nat.not_lt_zero j)
    · rw [if_neg hy] at h
      rcases Option.map_eq_some'.mp h with ⟨i0, hpos, rfl⟩
      obtain ⟨h0, hpred, hprev⟩ := position_some_spec pred ys i0 hpos
      refine ⟨by simpa using Nat.succ_lt_succ h0, hpred, ?_⟩
      intro j hj hji
      cases j with
      | zero => simpa using hy
      | succ j2 =>
        show pred (ys.get ⟨j2, Nat.lt_of_succ_lt_succ hj⟩) = false
        exact hprev j2 (Nat.lt_of_succ_lt_succ hj) (Nat.lt_of_succ_lt_succ hji)

theorem foldlMin_eq_firstMinSpec {α : Type} (f : α → ℕ) :
    ∀ (xs : List α) (x : α),
      some (xs.foldl (fun a b => if f b < f a then b else a) x) = firstMinSpec f (x :: xs)
  | [], x => by simp [firstMinSpec]
  | y :: ys, x => by
    rw [List.foldl_cons, foldlMin_eq_firstMinSpec f ys (if f y < f x then y else x)]
    cases hm : firstMinSpec f ys with
    | none =>
      by_cases h1 : f y < f x
      · simp [firstMinSpec, hm, h1]
      · simp [firstMinSpec, hm, h1]
    | some m =>
      by_cases h1 : f y < f x
      · by_cases h2 : f m < f y
        · have h3 : f m < f x := lt_trans h2 h1
          simp [firstMinSpec, hm, h1, h2, h3]
        · simp [firstMinSpec, hm, h1, h2]
      · by_cases h2 : f m < f y
        · simp [firstMinSpec, hm, h1, h2]
        · have h3 : ¬ f m < f x := by omega
          simp [firstMinSpec, hm, h1, h2, h3]

theorem minByKeyFirst_eq_firstMinSpec {α : Type} (f : α → ℕ) (l : List α) :
    minByKeyFirst f l = firstMinSpec f l := by
  cases l with
  | nil => rfl
  | cons x xs => exact foldlMin_eq_firstMinSpec f xs x

theorem firstMinSpec_enumFrom (g : ℕ → ℕ) :
    ∀ (known : List ℕ) (n : ℕ),
      (known = [] ∧ firstMinSpec (fun p => g p.2) (List.enumFrom n known) = none) ∨
      (∃ k, ∃ hk : k < known.length,
        firstMinSpec (fun p => g p.2) (List.enumFrom n known) =
          some (n + k, known.get ⟨k, hk⟩) ∧
        (∀ j (hj : j < known.length), g (known.get ⟨k, hk⟩) ≤ g (known.get ⟨j, hj⟩)) ∧
        (∀ j (hj : j < known.length), j < k → g (known.get ⟨k, hk⟩) < g (known.get ⟨j, hj⟩)))
  | [], n => Or.inl ⟨rfl, rfl⟩
  | x :: xs, n => by
    right
    rcases firstMinSpec_enumFrom g xs (n + 1) with ⟨hnil, hnone⟩ | ⟨k, hk, heq, hmin, hstrict⟩
    · subst hnil
      refine ⟨0, Nat.succ_pos _, ?_, ?_, ?_⟩
      · simp [List.enumFrom, firstMinSpec]
      · intro j hj
        cases j with
        | zero => exact le_refl _
        | succ j2 => exact absurd hj (by simp)
      · intro j hj hj0
        exact absurd hj0 (Nat.not_lt_zero j)
    · by_cases hc : g (xs.get ⟨k, hk⟩) < g x
      · have hk2 : k + 1 < (x :: xs).length := by
          simp only [List.length_cons]
          omega
        refine ⟨k + 1, hk2, ?_, ?_, ?_⟩
        · show firstMinSpec (fun p => g p.2) ((n, x) :: List.enumFrom (n + 1) xs) = _
          simp only [firstMinSpec]
          rw [heq]
          dsimp only
          rw [if_pos hc]
          have hn : n + 1 + k = n + (k + 1) := by omega
          have hg : (x :: xs).get ⟨k + 1, hk2⟩ = xs.get ⟨k, hk⟩ := rfl
          rw [hg, hn]
        · intro j hj
          cases j with
          | zero =>
            show g (xs.get ⟨k, hk⟩) ≤ g x
            exact le_of_lt hc
          | succ j2 =>
            show g (xs.get ⟨k, hk⟩) ≤ g (xs.get ⟨j2, Nat.lt_of_succ_lt_succ hj⟩)
            exact hmin j2 (Nat.lt_of_succ_lt_succ hj)
        · intro j hj hjk
          cases j with
          | zero =>
            show g (xs.get ⟨k, hk⟩) < g x
            exact hc
          | succ j2 =>
            show g (xs.get ⟨k, hk⟩) < g (xs.get ⟨j2, Nat.lt_of_succ_lt_succ hj⟩)
            exact hstrict j2 (Nat.lt_of_succ_lt_succ hj) (Nat.lt_of_succ_lt_succ hjk)
      · refine ⟨0, Nat.succ_pos _, ?_, ?_, ?_⟩
        · show firstMinSpec (fun p => g p.2) ((n, x) :: List.enumFrom (n + 1) xs) = _
          simp only [firstMinSpec]
          rw [heq]
          dsimp only
          rw [if_neg hc]
          simp
        · intro j hj
          cases j with
          | zero => exact le_refl _
          | succ j2 =>
            show g x ≤ g (xs.get ⟨j2, Nat.lt_of_succ_lt_succ hj⟩)
            exact le_trans (le_of_not_lt hc) (hmin j2 (Nat.lt_of_succ_lt_succ hj))
        · intro j hj hj0
          exact absurd hj0 (Nat.not_lt_zero j)

/-- C7.  For every nonempty calibration table (with a factor list of the
same length), the per-wavelength scale lookup returns the factor at the
(earliest) exact wavelength match when one is present; otherwise it returns
the factor of the configured wavelength closest by absolute difference,
with ties broken in favour of the earliest table entry (every strictly
earlier entry has strictly larger distance). -/
theorem scale_lookup_exact_then_closest_first_tie (known : List ℕ) (factors : List ℚ)
    (wavelength : ℕ) (hne : known ≠ []) (hlen : factors.length = known.length) :
    ∃ i q, scale_id known wavelength = Except.ok i ∧ factors.get? i = some q ∧
      lookupScale known factors wavelength = Except.ok q ∧
      ∃ hi : i < known.length,
        ((wavelength ∈ known ∧ known.get ⟨i, hi⟩ = wavelength ∧
            ∀ j (hj : j < known.length), j < i → known.get ⟨j, hj⟩ ≠ wavelength) ∨
         (wavelength ∉ known ∧
            (∀ j (hj : j < known.length),
              u32_abs_diff (known.get ⟨i, hi⟩) wavelength ≤
                u32_abs_diff (known.get ⟨j, hj⟩) wavelength) ∧
            (∀ j (hj : j < known.length), j < i →
              u32_abs_diff (known.get ⟨i, hi⟩) wavelength <
                u32_abs_diff (known.get ⟨j, hj⟩) wavelength))) := by
  cases hpos : position (fun e => e == wavelength) known with
  | some id =>
    obtain ⟨hi, hpred, hprev⟩ := position_some_spec (fun e => e == wavelength) known id hpos
    have hget : known.get ⟨id, hi⟩ = wavelength := by simpa using hpred
    have hilen : id < factors.length := by omega
    have hq : factors.get? id = some (factors.get ⟨id, hilen⟩) := List.get?_eq_get hilen
    have hid : scale_id known wavelength = Except.ok id := by
      unfold scale_id
      rw [hpos]
    refine ⟨id, factors.get ⟨id, hilen⟩, hid, hq, ?_, hi, Or.inl ⟨?_, hget, ?_⟩⟩
    · simp only [lookupScale, hid, hq]
    · exact hget ▸ List.get_mem known id hi
    · intro j hj hji
      have hf := hprev j hj hji
      simpa using hf
  | none =>
    have hnotmem : wavelength ∉ known := by
      intro hmem
      have hf := position_none_all (fun e => e == wavelength) known hpos wavelength hmem
      simp at hf
    rcases firstMinSpec_enumFrom (fun e => u32_abs_diff e wavelength) known 0 with
      ⟨hnil, _⟩ | ⟨k, hk, heq, hmin, hstrict⟩
    · exact absurd hnil hne
    · have heq2 : firstMinSpec (fun p => u32_abs_diff p.2 wavelength)
          (List.enumFrom 0 known) = some (0 + k, known.get ⟨k, hk⟩) := heq
      have hmin2 : ∀ j (hj : j < known.length),
          u32_abs_diff (known.get ⟨k, hk⟩) wavelength ≤
            u32_abs_diff (known.get ⟨j, hj⟩) wavelength := hmin
      have hstrict2 : ∀ j (hj : j < known.length), j < k →
          u32_abs_diff (known.get ⟨k, hk⟩) wavelength <
            u32_abs_diff (known.get ⟨j, hj⟩) wavelength := hstrict
      have hid : scale_id known wavelength = Except.ok k := by
        unfold scale_id
        rw [hpos, minByKeyFirst_eq_firstMinSpec, heq2]
        simp
      have hilen : k < factors.length := by omega
      have hq : factors.get? k = some (factors.get ⟨k, hilen⟩) := List.get?_eq_get hilen
      refine ⟨k, factors.get ⟨k, hilen⟩, hid, hq, ?_, hk, Or.inr ⟨hnotmem, hmin2, hstrict2⟩⟩
      simp only [lookupScale, hid, hq]

/-- C7 (witness).  For the table 450, 500, 550 with factors 1, 2, 3, the
request 530 selects index 2 and factor 3 (550 is closest by absolute
difference). -/
theorem scale_lookup_witness :
    ∃ i q, scale_id [450, 500, 550] 530 = Except.ok i ∧
      ([(1 : ℚ), 2, 3]).get? i = some q ∧
      lookupScale [450, 500, 550] [(1 : ℚ), 2, 3] 530 = Except.ok q ∧
      ∃ hi : i < [450, 500, 550].length,
        ((530 ∈ [450, 500, 550] ∧ [450, 500, 550].get ⟨i, hi⟩ = 530 ∧
            ∀ j (hj : j < [450, 500, 550].length), j < i →
              [450, 500, 550].get ⟨j, hj⟩ ≠ 530) ∨
         (530 ∉ [450, 500, 550] ∧
            (∀ j (hj : j < [450, 500, 550].length),
              u32_abs_diff ([450, 500, 550].get ⟨i, hi⟩) 530 ≤
                u32_abs_diff ([450, 500, 550].get ⟨j, hj⟩) 530) ∧
            (∀ j (hj : j < [450, 500, 550].length), j < i →
              u32_abs_diff ([450, 500, 550].get ⟨i, hi⟩) 530 <
                u32_abs_diff ([450, 500, 550].get ⟨j, hj⟩) 530))) :=
  scale_lookup_exact_then_closest_first_tie [450, 500, 550] [(1 : ℚ), 2, 3] 530
    (by decide) (by decide)

theorem lookupAssoc_assocInsert_self {κ β : Type} [DecidableEq κ] (k : κ) (v : β) :
    ∀ l : List (κ × β), lookupAssoc k (assocInsert k v l) = some v
  | [] => by simp [assocInsert, lookupAssoc]
  | kv :: rest => by
    by_cases h : kv.1 = k
    · simp [assocInsert, lookupAssoc, h]
    · simp [assocInsert, lookupAssoc, h, lookupAssoc_assocInsert_self k v rest]

theorem load_data_preserves (sys : Sys) (path : FsPath) (dim : Option (ℕ × ℕ)) :
    preservesFields sys ((load_data sys path dim).2) := by
  unfold load_data preservesFields
  split
  · exact ⟨rfl, rfl, rfl⟩
  · split
    · exact ⟨rfl, rfl, rfl⟩
    · exact ⟨rfl, rfl, rfl⟩

theorem computeBase_preserves (cfg : Config) (sys : Sys) :
    preservesFields sys ((computeBase cfg sys).2) := by
  unfold computeBase
  split
  · exact ⟨rfl, rfl, rfl⟩
  all_goals
    split
    · exact ⟨rfl, rfl, rfl⟩
    · exact load_data_preserves sys _ _

theorem loadFlatness_preserves (cfg : Config) (w : ℕ) (sys : Sys) :
    preservesFields sys ((loadFlatness cfg w sys).2) := by
  unfold loadFlatness
  by_cases hflag : cfg.add_flatness_correction
  · rw [if_pos hflag]
    cases hres : get_file_path_for_flatness_corr_pattern cfg.flatness_corr_patterns
        cfg.image_file_extensions (diskPaths sys.disk) w with
    | error e => exact ⟨rfl, rfl, rfl⟩
    | ok path =>
      dsimp only
      have hp := load_data_preserves sys path (some cfg.screen_size)
      rcases hld : load_data sys path (some cfg.screen_size) with ⟨r, sys2⟩
      rw [hld] at hp
      cases r with
      | error e => exact hp
      | ok a => exact hp
  · rw [if_neg hflag]
    exact ⟨rfl, rfl, rfl⟩

theorem compute_pattern_preserves (cfg : Config) (sys : Sys) :
    preservesFields sys ((compute_pattern cfg sys).2) := by
  unfold compute_pattern
  have hb := computeBase_preserves cfg sys
  rcases hcb : computeBase cfg sys with ⟨r1, sys1⟩
  rw [hcb] at hb
  dsimp only
  cases r1 with
  | error e => exact hb
  | ok base =>
    dsimp only
    have hf := loadFlatness_preserves cfg sys.state.wavelength sys1
    rcases hlf : loadFlatness cfg sys.state.wavelength sys1 with ⟨r2, sys2⟩
    rw [hlf] at hf
    have htrans : preservesFields sys sys2 := by
      obtain ⟨a1, a2, a3⟩ := hb
      obtain ⟨b1, b2, b3⟩ := hf
      exact ⟨b1.trans a1, b2.trans a2, b3.trans a3⟩
    cases r2 with
    | error e => exact htrans
    | ok flat => exact htrans

/-- C10.  Every handler that changes the device state (`Set`, `PreStack`,
`SetFresnel`, `SetPattern`, and the laser-driven wavelength update) goes
through `update_state`, which assigns the selected fields *before* computing
and presenting the pattern; whether the computation or presentation succeeds
or fails, the resulting state carries the new field values — a failed
message does not roll the mutation back. -/
theorem update_state_fields_assigned_before_compute : ∀ (cfg : Config) (sys : Sys)
    (pp : Option PatternParams) (fr wl : Option ℕ),
    ((update_state cfg sys pp fr wl).2).state.pattern_params = pp.getD sys.state.pattern_params ∧
    ((update_state cfg sys pp fr wl).2).state.fresnel = fr.getD sys.state.fresnel ∧
    ((update_state cfg sys pp fr wl).2).state.wavelength = wl.getD sys.state.wavelength := by
  intro cfg sys pp fr wl
  unfold update_state
  have hcp := compute_pattern_preserves cfg
    { sys with state := { sys.state with
        pattern_params := pp.getD sys.state.pattern_params,
        fresnel := fr.getD sys.state.fresnel,
        wavelength := wl.getD sys.state.wavelength } }
  rcases hc : compute_pattern cfg
    { sys with state := { sys.state with
        pattern_params := pp.getD sys.state.pattern_params,
        fresnel := fr.getD sys.state.fresnel,
        wavelength := wl.getD sys.state.wavelength } } with ⟨r, sys2⟩
  rw [hc] at hcp
  obtain ⟨h1, h2, h3⟩ := hcp
  cases r with
  | error e => exact ⟨h3, h2, h1⟩
  | ok pat => exact ⟨h3, h2, h1⟩

/-- C1.  Merging an all-zero delta raster into an existing flatness file
does not leave the stored file unchanged: the read path scales samples by
`TWO_PI / 256` while the write path scales by `255 / TWO_PI`, so writing
back the merged (numerically unchanged) array turns the 8-bit sample 1 into
0 — the on-disk samples are not reproduced by the round trip. -/
theorem flatness_zero_delta_roundtrip_decrements :
    (add_correction_pattern_deltas cfgFix sysOne deltaZero).1 = Except.ok () ∧
    lookupAssoc flatPlain sysOne.disk = some [[1]] ∧
    lookupAssoc flatPlain (add_correction_pattern_deltas cfgFix sysOne deltaZero).2.disk =
      some [[0]] := by
  have hsave : saveImageSample (readImageSample 1) = 0 := by
    norm_num [saveImageSample, readImageSample, f32AsU8, remEuclid, TWO_PI]
  have hrun : add_correction_pattern_deltas cfgFix sysOne deltaZero =
      (Except.ok (),
        { state := { stateFix with cache := [(flatPlain, [[readImageSample 1 + 0]])] },
          disk := [(flatPlain, [[saveImageSample (readImageSample 1 + 0)]])] }) := rfl
  rw [hrun]
  refine ⟨rfl, by simp [sysOne, lookupAssoc], ?_⟩
  show lookupAssoc flatPlain [(flatPlain, [[saveImageSample (readImageSample 1 + 0)]])] =
    some [[0]]
  simp [lookupAssoc, hsave]

/-- C8 (counterexample).  After a successful correction merge the cache
entry for the written path holds the merged float array while the disk holds
its 8-bit quantization; re-reading the written file does not reproduce the
cached array, so cache and disk do not agree numerically. -/
theorem merge_cache_disk_quantization_gap :
    (add_correction_pattern_deltas cfgFix sysOne deltaHalf).1 = Except.ok () ∧
    lookupAssoc flatPlain (add_correction_pattern_deltas cfgFix sysOne deltaHalf).2.state.cache ≠
      (lookupAssoc flatPlain (add_correction_pattern_deltas cfgFix sysOne deltaHalf).2.disk).map
        (fun r => r.map (fun row => row.map readImageSample)) := by
  have hrun : add_correction_pattern_deltas cfgFix sysOne deltaHalf =
      (Except.ok (),
        { state := { stateFix with cache := [(flatPlain, [[readImageSample 1 + 1 / 2]])] },
          disk := [(flatPlain, [[saveImageSample (readImageSample 1 + 1 / 2)]])] }) := rfl
  rw [hrun]
  refine ⟨rfl, ?_⟩
  show lookupAssoc flatPlain [(flatPlain, [[readImageSample 1 + 1 / 2]])] ≠
    (lookupAssoc flatPlain [(flatPlain, [[saveImageSample (readImageSample 1 + 1 / 2)]])]).map
      (fun r => r.map (fun row => row.map readImageSample))
  have hsave : saveImageSample (readImageSample 1 + 1 / 2) = 21 := by
    norm_num [saveImageSample, readImageSample, f32AsU8, remEuclid, TWO_PI]
    decide
  rw [hsave]
  have hl : lookupAssoc flatPlain [(flatPlain, [[readImageSample 1 + 1 / 2]])] =
      some [[readImageSample 1 + 1 / 2]] := by simp [lookupAssoc]
  have hr : lookupAssoc flatPlain [(flatPlain, ([[21]] : Raster))] = some [[21]] := by
    simp [lookupAssoc]
  rw [hl, hr]
  intro hcontra
  simp only [Option.map_some', List.map_cons, List.map_nil, Option.some.injEq,
    List.cons.injEq, and_true] at hcontra
  norm_num [readImageSample, TWO_PI] at hcontra

/-- C8 (amended).  A successful correction merge overwrites, in the same
operation as the disk write, the cache entry for the written
(`_factory`-stripped) path with the merged float array, and what lands on
disk is exactly the 8-bit quantization of that cached array: cache and disk
agree up to the quantization of on-disk storage, not numerically. -/
theorem merge_overwrites_cache_with_write (cfg : Config) (sys sys2 : Sys)
    (d : CorrectionPatternDeltas)
    (h : add_correction_pattern_deltas cfg sys d = (Except.ok (), sys2)) :
    ∃ fp merged,
      get_file_path_for_flatness_corr_pattern cfg.flatness_corr_patterns
        cfg.image_file_extensions (diskPaths sys.disk) d.wavelength = Except.ok fp ∧
      lookupAssoc (stripFactoryPath fp) sys2.state.cache = some merged ∧
      lookupAssoc (stripFactoryPath fp) sys2.disk = some (save_image merged) := by
  unfold add_correction_pattern_deltas at h
  cases hres : get_file_path_for_flatness_corr_pattern cfg.flatness_corr_patterns
      cfg.image_file_extensions (diskPaths sys.disk) d.wavelength with
  | error e => rw [hres] at h; simp at h
  | ok fp =>
    rw [hres] at h
    dsimp only at h
    rcases hload : load_data sys fp none with ⟨r1, sys1⟩
    rw [hload] at h
    cases r1 with
    | error e => simp at h
    | ok old =>
      dsimp only at h
      cases hdec : base64_to_ndarray d.imagedata d.shape_xy with
      | error e => rw [hdec] at h; simp at h
      | ok delta =>
        rw [hdec] at h
        dsimp only at h
        cases hadd : addImage old delta with
        | error e => rw [hadd] at h; simp at h
        | ok newP =>
          rw [hadd] at h
          dsimp only at h
          simp only [Prod.mk.injEq, true_and] at h
          subst h
          refine ⟨fp, newP, rfl, ?_, ?_⟩
          · exact lookupAssoc_assocInsert_self (stripFactoryPath fp) newP sys1.state.cache
          · exact lookupAssoc_assocInsert_self (stripFactoryPath fp) (save_image newP) sys1.disk

/-- C8 (witness).  Merging the empty delta into the empty flatness raster
succeeds, and afterwards the cache entry and the disk contents for the
written path are the merged array and its quantization. -/
theorem merge_overwrites_cache_with_write_witness :
    ∃ fp merged,
      get_file_path_for_flatness_corr_pattern cfgFix.flatness_corr_patterns
        cfgFix.image_file_extensions (diskPaths sysEmptyRaster.disk) deltaEmpty.wavelength =
        Except.ok fp ∧
      lookupAssoc (stripFactoryPath fp) sysEmptyMerged.state.cache = some merged ∧
      lookupAssoc (stripFactoryPath fp) sysEmptyMerged.disk = some (save_image merged) :=
  merge_overwrites_cache_with_write cfgFix sysEmptyRaster sysEmptyMerged deltaEmpty (by rfl)

end SLM
